import Mathlib

/-!
Verification of the capped-multiset library.

The structure `CappedMultiset` embeds the Rust struct of the same name from
src/lib.rs: a vector of u32 elements together with a u32 cap. Machine
integers u32 are modelled as natural numbers; the one place where u32
arithmetic can overflow, the accumulating addition inside sum, is modelled
with an explicit reduction modulo 2^32 at each step, matching wrapping u32
addition. All other operations (min, max, the cap field) stay within u32
range whenever their inputs do, so no reduction is needed there.
-/

/-- The value of u32 MAX in Rust, the default "no cap" sentinel. -/
def u32max : Nat := 2 ^ 32 - 1

/-- Embeds the Rust struct CappedMultiset: a vector of raw u32 elements and
a u32 cap (u32 MAX means "no cap"). -/
structure CappedMultiset where
  elements : List Nat
  cap : Nat
deriving DecidableEq, Repr

/-- Embeds CappedMultiset::new: wraps the given vector with the cap set to
u32 MAX (no cap). -/
def CappedMultiset.new (item : List Nat) : CappedMultiset :=
  { elements := item, cap := u32max }

/-- Embeds CappedMultiset::sum: folds over the elements, adding
min(element, cap) into a u32 accumulator; the accumulating u32 addition
wraps, hence the reduction modulo 2^32 at each step. -/
def CappedMultiset.sum (s : CappedMultiset) : Nat :=
  s.elements.foldl (fun acc x => (acc + min x s.cap) % 2 ^ 32) 0

/-- Embeds CappedMultiset::set_cap: replaces the cap with the given value,
or with u32 MAX when the argument is None. -/
def CappedMultiset.set_cap (s : CappedMultiset) (c : Option Nat) : CappedMultiset :=
  { s with cap := c.getD u32max }

/-- Embeds BitAndAssign::bitand_assign for CappedMultiset: the loop walks
the two element vectors in lockstep up to the shorter length, storing the
element-wise minimum into the left operand; positions of the left operand
beyond the right operand's length are left untouched, as is the cap. -/
def CappedMultiset.bitand_assign (s rhs : CappedMultiset) : CappedMultiset :=
  { s with elements :=
      List.zipWith min s.elements rhs.elements ++ s.elements.drop rhs.elements.length }

/-- Embeds BitOrAssign::bitor_assign: same lockstep loop with the
element-wise maximum. -/
def CappedMultiset.bitor_assign (s rhs : CappedMultiset) : CappedMultiset :=
  { s with elements :=
      List.zipWith max s.elements rhs.elements ++ s.elements.drop rhs.elements.length }

/-- Embeds BitAnd::bitand: builds a fresh CappedMultiset::new from the left
operand's raw elements (so its cap is u32 MAX) and applies the in-place
intersection with the right operand. -/
def CappedMultiset.bitand (s rhs : CappedMultiset) : CappedMultiset :=
  CappedMultiset.bitand_assign (CappedMultiset.new s.elements) rhs

/-- Embeds BitOr::bitor: fresh instance from the left operand's raw
elements, then the in-place union with the right operand. -/
def CappedMultiset.bitor (s rhs : CappedMultiset) : CappedMultiset :=
  CappedMultiset.bitor_assign (CappedMultiset.new s.elements) rhs

/-- Modelled from the spec: the keyed variant of the structure is not part
of src/lib.rs (only the positional variant is); per spec section 3 it owns
a mapping from keys to multiplicities and an optional cap. The mapping is
modelled as an association list with at most one entry per key. -/
structure KeyedCappedMultiset (K : Type) where
  entries : List (K × Nat)
  cap : Option Nat
deriving Repr

/-- Modelled from the spec: the stored (raw) multiplicity of a key is the
multiplicity recorded in the mapping, and a key absent from the mapping is
stored with multiplicity 0. -/
def KeyedCappedMultiset.stored_multiplicity_of {K : Type} [DecidableEq K]
    (m : KeyedCappedMultiset K) (k : K) : Nat :=
  match m.entries.find? (fun p => p.1 == k) with
  | some p => p.2
  | none => 0

/-- Modelled from the spec: count_of returns the stored multiplicity capped
at the cap when a cap is set, and the raw stored multiplicity when no cap
is set; it is total and never an error. -/
def KeyedCappedMultiset.count_of {K : Type} [DecidableEq K]
    (m : KeyedCappedMultiset K) (k : K) : Nat :=
  match m.cap with
  | some c => min (m.stored_multiplicity_of k) c
  | none => m.stored_multiplicity_of k

/-! ### Helper lemmas -/

/-- The wrapping fold of sum computes the mathematical sum of the capped
elements reduced modulo 2^32, for any in-range accumulator. -/
lemma foldl_add_min_mod (c : Nat) :
    ∀ (l : List Nat) (acc : Nat), acc < 2 ^ 32 →
      l.foldl (fun a x => (a + min x c) % 2 ^ 32) acc
        = (acc + (l.map (fun v => min v c)).sum) % 2 ^ 32 := by
  intro l
  induction l with
  | nil =>
      intro acc h
      simp only [List.foldl_nil, List.map_nil, List.sum_nil, Nat.add_zero]
      exact (Nat.mod_eq_of_lt h).symm
  | cons x t ih =>
      intro acc _
      simp only [List.foldl_cons, List.map_cons, List.sum_cons]
      rw [ih _ (Nat.mod_lt _ (by norm_num)), Nat.mod_add_mod, Nat.add_assoc]

/-- sum equals the mathematical sum of the per-element capped values,
reduced modulo 2^32. -/
lemma sum_eq_capped_sum_mod (s : CappedMultiset) :
    s.sum = (s.elements.map (fun v => min v s.cap)).sum % 2 ^ 32 := by
  have h := foldl_add_min_mod s.cap s.elements 0 (by norm_num)
  simpa [CappedMultiset.sum] using h

/-- Zipping a list with itself under an idempotent operation returns the
list. -/
lemma zipWith_self_of_idem (f : Nat → Nat → Nat) (hf : ∀ a, f a a = a) :
    ∀ l : List Nat, List.zipWith f l l = l := by
  intro l
  induction l with
  | nil => rfl
  | cons x t ih => simp [List.zipWith_cons_cons, hf, ih]

/-- The element vector produced by the lockstep loop has the left operand's
length. -/
lemma zipWith_append_drop_length (f : Nat → Nat → Nat) :
    ∀ (l r : List Nat), (List.zipWith f l r ++ l.drop r.length).length = l.length := by
  intro l r
  simp only [List.length_append, List.length_zipWith, List.length_drop]
  omega

/-- Dropping the right operand's length from the loop's result recovers the
untouched tail of the left operand. -/
lemma zipWith_append_drop_drop (f : Nat → Nat → Nat) :
    ∀ (r l : List Nat),
      (List.zipWith f l r ++ l.drop r.length).drop r.length = l.drop r.length := by
  intro r
  induction r with
  | nil => intro l; simp
  | cons b r' ih =>
      intro l
      cases l with
      | nil => simp
      | cons a l' =>
          simpa [List.zipWith_cons_cons] using ih l'

/-! ### Claim theorems -/

/-- C1: sum returns the sum over i of min(v_i, cap), the cap applied to
each element individually before summing (stated on inputs whose capped
total fits in u32, where the wrapping accumulator is exact). -/
theorem sum_caps_each_element (s : CappedMultiset)
    (h : (s.elements.map (fun v => min v s.cap)).sum < 2 ^ 32) :
    s.sum = (s.elements.map (fun v => min v s.cap)).sum := by
  rw [sum_eq_capped_sum_mod s, Nat.mod_eq_of_lt h]

/-- Witness for C1 at a concrete input: elements 1, 7, 3 with cap 4 sum to
min 1 4 + min 7 4 + min 3 4 = 8. -/
theorem sum_caps_each_element_witness :
    (CappedMultiset.mk [1, 7, 3] 4).sum
      = ((CappedMultiset.mk [1, 7, 3] 4).elements.map
          (fun v => min v (CappedMultiset.mk [1, 7, 3] 4).cap)).sum :=
  sum_caps_each_element (CappedMultiset.mk [1, 7, 3] 4) (by decide)

/-- C10: the accumulating addition of sum wraps: for every multiset, and in
particular when the capped total exceeds u32 MAX, sum returns that total
reduced modulo 2^32 (no saturation, no error). -/
theorem sum_wraps_modulo (s : CappedMultiset)
    (_h : 2 ^ 32 ≤ (s.elements.map (fun v => min v s.cap)).sum) :
    s.sum = (s.elements.map (fun v => min v s.cap)).sum % 2 ^ 32 :=
  sum_eq_capped_sum_mod s

/-- Witness for C10: two elements of value u32 MAX with no cap total
2 * (2^32 - 1), which exceeds u32 MAX, and sum returns that total reduced
modulo 2^32, namely 2^32 - 2. -/
theorem sum_wraps_modulo_witness :
    2 ^ 32 ≤ ((CappedMultiset.new [u32max, u32max]).elements.map
        (fun v => min v (CappedMultiset.new [u32max, u32max]).cap)).sum
    ∧ (CappedMultiset.new [u32max, u32max]).sum
        = ((CappedMultiset.new [u32max, u32max]).elements.map
            (fun v => min v (CappedMultiset.new [u32max, u32max]).cap)).sum % 2 ^ 32 :=
  ⟨by decide, sum_wraps_modulo (CappedMultiset.new [u32max, u32max]) (by decide)⟩

/-- C6: set_cap replaces the cap field unconditionally (with the given
value, or u32 MAX for None) and leaves the elements field exactly
unchanged. -/
theorem set_cap_frame (s : CappedMultiset) (c : Option Nat) :
    (s.set_cap c).elements = s.elements ∧ (s.set_cap c).cap = c.getD u32max :=
  ⟨rfl, rfl⟩

/-- C8: on lhs built from 2,4,6,8,10 and rhs built from 2,3,4,10,12 (no cap
set), the union sums to 34 and the intersection to 27. -/
theorem concrete_union_intersection_sums :
    (CappedMultiset.bitor (CappedMultiset.new [2, 4, 6, 8, 10])
        (CappedMultiset.new [2, 3, 4, 10, 12])).sum = 34
    ∧ (CappedMultiset.bitand (CappedMultiset.new [2, 4, 6, 8, 10])
        (CappedMultiset.new [2, 3, 4, 10, 12])).sum = 27 := by
  constructor <;> decide

/-- C2: the value-producing operators compute their elements from the raw
stored elements only — replacing either operand's cap changes nothing —
each combined position holds the min (resp. max) of the raw operands, the
untouched tail comes raw from the left operand, and the result's cap is
always u32 MAX. -/
theorem value_operators_raw_and_unbounded (a b : CappedMultiset) (c1 c2 : Nat) :
    (a.bitand b).cap = u32max
    ∧ (a.bitor b).cap = u32max
    ∧ (a.bitand b).elements
        = List.zipWith min a.elements b.elements ++ a.elements.drop b.elements.length
    ∧ (a.bitor b).elements
        = List.zipWith max a.elements b.elements ++ a.elements.drop b.elements.length
    ∧ CappedMultiset.bitand (CappedMultiset.mk a.elements c1) (CappedMultiset.mk b.elements c2)
        = a.bitand b
    ∧ CappedMultiset.bitor (CappedMultiset.mk a.elements c1) (CappedMultiset.mk b.elements c2)
        = a.bitor b :=
  ⟨rfl, rfl, rfl, rfl, rfl, rfl⟩

/-- C7: the in-place operators preserve the left operand's length; the left
operand's elements beyond the right operand's length are kept with their
original values; the value-producing forms likewise return the left
operand's length. -/
theorem assign_operators_preserve_lhs (a b : CappedMultiset) :
    (a.bitand_assign b).elements.length = a.elements.length
    ∧ (a.bitor_assign b).elements.length = a.elements.length
    ∧ (a.bitand_assign b).elements.drop b.elements.length
        = a.elements.drop b.elements.length
    ∧ (a.bitor_assign b).elements.drop b.elements.length
        = a.elements.drop b.elements.length
    ∧ (a.bitand b).elements.length = a.elements.length
    ∧ (a.bitor b).elements.length = a.elements.length :=
  ⟨zipWith_append_drop_length min a.elements b.elements,
   zipWith_append_drop_length max a.elements b.elements,
   zipWith_append_drop_drop min b.elements a.elements,
   zipWith_append_drop_drop max b.elements a.elements,
   zipWith_append_drop_length min a.elements b.elements,
   zipWith_append_drop_length max a.elements b.elements⟩

/-- C3 counterexample: on lhs with elements 5, 7 and rhs with element 3,
the claim predicts the combined result consists only of the element-wise
minima over the first min(2, 1) = 1 positions, i.e. the single element
min 5 3; the code instead keeps the left operand's trailing element 7. -/
theorem mismatched_truncation_counterexample :
    ¬ ((CappedMultiset.bitand (CappedMultiset.new [5, 7])
          (CappedMultiset.new [3])).elements
        = List.zipWith min [5, 7] [3]) := by
  decide

/-- C3 amended: on mismatched lengths, all four operators combine
element-wise over the first min(len(lhs), len(rhs)) positions, trailing
elements of the RIGHT operand are silently ignored, and trailing elements
of the LEFT operand are kept unchanged in the result; no error is ever
signaled (the operations are total). -/
theorem mismatched_zip_keeps_lhs_tail (a b : CappedMultiset) :
    (a.bitand_assign b).elements
        = List.zipWith min a.elements b.elements ++ a.elements.drop b.elements.length
    ∧ (a.bitor_assign b).elements
        = List.zipWith max a.elements b.elements ++ a.elements.drop b.elements.length
    ∧ (a.bitand b).elements
        = List.zipWith min a.elements b.elements ++ a.elements.drop b.elements.length
    ∧ (a.bitor b).elements
        = List.zipWith max a.elements b.elements ++ a.elements.drop b.elements.length :=
  ⟨rfl, rfl, rfl, rfl⟩

/-- Commuting the arguments of zipWith under a commutative operation. -/
lemma zipWith_comm_of_comm_fn (f : Nat → Nat → Nat) (hf : ∀ x y, f x y = f y x) :
    ∀ l r : List Nat, List.zipWith f l r = List.zipWith f r l := by
  intro l
  induction l with
  | nil => intro r; cases r <;> rfl
  | cons x t ih =>
      intro r
      cases r with
      | nil => rfl
      | cons y u => simp [List.zipWith_cons_cons, hf, ih]

/-- C4 counterexample: with lhs elements 5, 7 and rhs element 3,
intersection is not commutative (the results have lengths 2 and 1); and
with a single element 1 under cap 0, neither a AND a nor a OR a equals a,
because the value operators reset the result's cap to u32 MAX. -/
theorem comm_idem_counterexample :
    ¬ (CappedMultiset.bitand (CappedMultiset.new [5, 7]) (CappedMultiset.new [3])
        = CappedMultiset.bitand (CappedMultiset.new [3]) (CappedMultiset.new [5, 7]))
    ∧ ¬ (CappedMultiset.bitand (CappedMultiset.mk [1] 0) (CappedMultiset.mk [1] 0)
        = CappedMultiset.mk [1] 0)
    ∧ ¬ (CappedMultiset.bitor (CappedMultiset.mk [1] 0) (CappedMultiset.mk [1] 0)
        = CappedMultiset.mk [1] 0) := by
  refine ⟨by decide, by decide, by decide⟩

/-- C4 amended: intersection is commutative on operands of equal length;
a AND a and a OR a always preserve the raw elements, and they equal a
itself (structure equality) exactly when a's cap is unbounded, since the
value operators reset the result's cap to u32 MAX. -/
theorem intersection_comm_and_raw_idem (a b : CappedMultiset) :
    (a.elements.length = b.elements.length → a.bitand b = b.bitand a)
    ∧ (a.bitand a).elements = a.elements
    ∧ (a.bitor a).elements = a.elements
    ∧ (a.cap = u32max → a.bitand a = a ∧ a.bitor a = a) := by
  refine ⟨?_, ?_, ?_, ?_⟩
  · intro h
    have hd1 : a.elements.drop b.elements.length = [] := by
      rw [← h]; exact List.drop_length _
    have hd2 : b.elements.drop a.elements.length = [] := by
      rw [h]; exact List.drop_length _
    simp [CappedMultiset.bitand, CappedMultiset.bitand_assign, CappedMultiset.new,
      hd1, hd2, zipWith_comm_of_comm_fn min Nat.min_comm a.elements b.elements]
  · simp [CappedMultiset.bitand, CappedMultiset.bitand_assign, CappedMultiset.new,
      zipWith_self_of_idem min Nat.min_self, List.drop_length]
  · simp [CappedMultiset.bitor, CappedMultiset.bitor_assign, CappedMultiset.new,
      zipWith_self_of_idem max Nat.max_self, List.drop_length]
  · intro hc
    obtain ⟨el, cp⟩ := a
    simp only at hc
    subst hc
    constructor <;>
      simp [CappedMultiset.bitand, CappedMultiset.bitor, CappedMultiset.bitand_assign,
        CappedMultiset.bitor_assign, CappedMultiset.new,
        zipWith_self_of_idem min Nat.min_self, zipWith_self_of_idem max Nat.max_self,
        List.drop_length]

/-- Witness for the amended C4 at concrete inputs: commutativity on the
equal-length pair built from 1, 5 and 2, 3, and idempotence on the uncapped
multiset built from 1, 5. -/
theorem intersection_comm_and_raw_idem_witness :
    (CappedMultiset.bitand (CappedMultiset.new [1, 5]) (CappedMultiset.new [2, 3])
        = CappedMultiset.bitand (CappedMultiset.new [2, 3]) (CappedMultiset.new [1, 5]))
    ∧ (CappedMultiset.bitand (CappedMultiset.new [1, 5]) (CappedMultiset.new [1, 5])
        = CappedMultiset.new [1, 5]) :=
  ⟨(intersection_comm_and_raw_idem (CappedMultiset.new [1, 5])
      (CappedMultiset.new [2, 3])).1 (by decide),
   ((intersection_comm_and_raw_idem (CappedMultiset.new [1, 5])
      (CappedMultiset.new [1, 5])).2.2.2 rfl).1⟩

/-- C5 counterexample: for the multiset with element 5 under cap 3, sum
before the calls is 3, but after set_cap(Some 1) then set_cap(None) the
cap is u32 MAX and sum is the uncapped 5, not the pre-call 3. -/
theorem set_cap_roundtrip_counterexample :
    ¬ ((((CappedMultiset.mk [5] 3).set_cap (some 1)).set_cap none).sum
        = (CappedMultiset.mk [5] 3).sum) := by
  decide

/-- C5 amended: set_cap(Some c) followed by set_cap(None) leaves sum equal
to the original UNCAPPED sum (the sum the multiset has with the cap
removed), never mutates the stored elements, and in particular restores the
pre-call sum whenever the original cap was unbounded. -/
theorem set_cap_roundtrip_uncapped (s : CappedMultiset) (c : Nat) :
    ((s.set_cap (some c)).set_cap none).sum = (s.set_cap none).sum
    ∧ ((s.set_cap (some c)).set_cap none).elements = s.elements
    ∧ (s.cap = u32max → ((s.set_cap (some c)).set_cap none).sum = s.sum) := by
  refine ⟨rfl, rfl, ?_⟩
  intro hc
  obtain ⟨el, cp⟩ := s
  simp only at hc
  subst hc
  rfl

/-- Witness for the amended C5: the uncapped multiset with element 5 has
its sum restored after set_cap(Some 1) then set_cap(None). -/
theorem set_cap_roundtrip_uncapped_witness :
    (((CappedMultiset.new [5]).set_cap (some 1)).set_cap none).sum
      = (CappedMultiset.new [5]).sum :=
  (set_cap_roundtrip_uncapped (CappedMultiset.new [5]) 1).2.2 rfl

/-- C9: in the keyed variant, count_of returns the stored multiplicity
capped at the cap when a cap is set, the raw stored multiplicity when no
cap is set, and 0 when the key is absent, for every key and cap state;
it is a total function, never an error. -/
theorem count_of_capped_total {K : Type} [DecidableEq K]
    (m : KeyedCappedMultiset K) (k : K) :
    (∀ c, m.cap = some c → m.count_of k = min (m.stored_multiplicity_of k) c)
    ∧ (m.cap = none → m.count_of k = m.stored_multiplicity_of k)
    ∧ (m.entries.find? (fun p => p.1 == k) = none → m.count_of k = 0) := by
  refine ⟨?_, ?_, ?_⟩
  · intro c hc
    simp [KeyedCappedMultiset.count_of, hc]
  · intro hc
    simp [KeyedCappedMultiset.count_of, hc]
  · intro h
    have hs : m.stored_multiplicity_of k = 0 := by
      simp [KeyedCappedMultiset.stored_multiplicity_of, h]
    cases hcap : m.cap <;>
      simp [KeyedCappedMultiset.count_of, hcap, hs]

/-- Witness for C9 at a concrete keyed multiset over Nat keys: with key 1
stored at multiplicity 7 under cap 5, count_of 1 is min 7 5 and the absent
key 0 counts 0. -/
theorem count_of_capped_total_witness :
    (KeyedCappedMultiset.mk [(1, 7)] (some 5) : KeyedCappedMultiset Nat).count_of 1
        = min ((KeyedCappedMultiset.mk [(1, 7)] (some 5) :
            KeyedCappedMultiset Nat).stored_multiplicity_of 1) 5
    ∧ (KeyedCappedMultiset.mk [(1, 7)] (some 5) : KeyedCappedMultiset Nat).count_of 0 = 0 :=
  ⟨(count_of_capped_total (KeyedCappedMultiset.mk [(1, 7)] (some 5)) 1).1 5 rfl,
   (count_of_capped_total (KeyedCappedMultiset.mk [(1, 7)] (some 5)) 0).2.2 (by decide)⟩
